import Mathlib

/-!
# Verification of the fs-utils Luau decompilation core

A shallow embedding of the pipeline implemented in `fs-lib/src/buffer.rs`,
`fs-luau-decompile/src/luau/{utilated,prototype,parser}.rs` and
`fs-luau-decompile/src/main.rs`, together with theorems settling the frozen
claims about it.

Modelling conventions:
* Rust byte buffers (`Vec<u8>`) are `List Nat` whose elements are intended
  to be `< 256`; Rust `String`/`&str` values are their UTF-8 byte lists.
* `usize` arithmetic that can wrap is modelled explicitly modulo `2 ^ 64`
  (release-profile wrapping semantics).
* Fallible operations return `Option`/`Except`.  A Rust panic (out-of-bounds
  index, explicit panic macro, arithmetic that leads to an out-of-range
  slice) is modelled as a distinguished failure value, kept separate from
  `nom`-style parse errors.
-/

namespace FsUtils

/-- `u8::wrapping_add` on `Nat` representatives. -/
def wadd (a b : Nat) : Nat := (a + b) % 256

/-- `u8::wrapping_sub` on `Nat` representatives. -/
def wsub (a b : Nat) : Nat := (a + 256 - b % 256) % 256

theorem wsub_wadd (a b : Nat) : wsub (wadd a b) b = a % 256 := by
  unfold wadd wsub
  omega

/-! ## The obfuscation transform (`fs-lib/src/buffer.rs`, lines 125-141)

`shift_bytes` and `shift_bytes_reversed` walk the buffer from `offset` to the
end and replace byte `i` by a wrapping combination of the original byte, the
table byte at `i & mask`, and `i as u8`.  The Rust code indexes
`table[i & mask]` directly, which panics when the index is out of range; the
model returns `none` in that case.  The loop is modelled by structural
recursion over the buffer, carrying the running index `i` (starting at 0;
entries below `offset` are left untouched, exactly as the `for i in
offset..self.len()` loop does). -/

def shiftLoop (table : List Nat) (offset mask : Nat) (step : Nat → Nat → Nat → Nat) :
    Nat → List Nat → Option (List Nat)
  | _, [] => some []
  | i, v :: rest =>
    if i < offset then
      (shiftLoop table offset mask step (i + 1) rest).map (v :: ·)
    else
      match table.get? (i &&& mask) with
      | none => none
      | some t => (shiftLoop table offset mask step (i + 1) rest).map (step v t i :: ·)

/-- `Vec<u8>::shift_bytes`: byte `i` becomes
`(buffer[i] + table[i & mask] + i) mod 256`. -/
def shift_bytes (b table : List Nat) (offset mask : Nat) : Option (List Nat) :=
  shiftLoop table offset mask (fun v t i => wadd (wadd v t) i) 0 b

/-- `Vec<u8>::shift_bytes_reversed`: byte `i` becomes
`(buffer[i] - table[i & mask] - i) mod 256`. -/
def shift_bytes_reversed (b table : List Nat) (offset mask : Nat) : Option (List Nat) :=
  shiftLoop table offset mask (fun v t i => wsub (wsub v t) i) 0 b

theorem shiftLoop_roundtrip (table : List Nat) (offset mask : Nat) :
    ∀ (b b' : List Nat) (i : Nat), (∀ x ∈ b, x < 256) →
      shiftLoop table offset mask (fun v t i => wadd (wadd v t) i) i b = some b' →
      shiftLoop table offset mask (fun v t i => wsub (wsub v t) i) i b' = some b := by
  intro b
  induction b with
  | nil =>
    intro b' i _ h
    simp only [shiftLoop] at h
    cases h
    rfl
  | cons v rest ih =>
    intro b' i hlt h
    simp only [shiftLoop] at h
    by_cases hio : i < offset
    · simp only [if_pos hio] at h
      rcases Option.map_eq_some'.mp h with ⟨r', hr', rfl⟩
      have := ih r' (i + 1) (fun x hx => hlt x (List.mem_cons_of_mem _ hx)) hr'
      simp only [shiftLoop, if_pos hio, this, Option.map_some']
    · simp only [if_neg hio] at h
      cases hget : table.get? (i &&& mask) with
      | none => rw [hget] at h; cases h
      | some t =>
        rw [hget] at h
        rcases Option.map_eq_some'.mp h with ⟨r', hr', rfl⟩
        have := ih r' (i + 1) (fun x hx => hlt x (List.mem_cons_of_mem _ hx)) hr'
        have hv : v < 256 := hlt v (List.mem_cons_self _ _)
        simp only [shiftLoop, if_neg hio, hget, this, Option.map_some']
        congr 2
        show wsub (wsub (wadd (wadd v t) i) t) i = v
        have h1 : wsub (wadd (wadd v t) i) i = wadd v t % 256 := wsub_wadd _ _
        unfold wadd wsub at *
        omega

/-- **C1.** For every byte buffer `b`, table, offset and mask, whenever the
obfuscation transform `shift_bytes` completes (that is, it does not panic on a
table index out of range), applying `shift_bytes_reversed` with the same
table, offset and mask restores the original buffer:
`shift_bytes_reversed (shift_bytes b T o m) T o m = b`. -/
theorem shift_bytes_roundtrip (b table : List Nat) (offset mask : Nat) (b' : List Nat)
    (hbytes : ∀ x ∈ b, x < 256)
    (happly : shift_bytes b table offset mask = some b') :
    shift_bytes_reversed b' table offset mask = some b :=
  shiftLoop_roundtrip table offset mask b b' 0 hbytes happly

/-- Witness for `shift_bytes_roundtrip` at a concrete buffer, table, offset
and mask. -/
theorem shift_bytes_roundtrip_witness :
    shift_bytes_reversed [10, 146, 76, 251] [0x02, 0x13, 0x0A, 0x08] 1 0x03 = some [10, 126, 64, 240] := by
  have h : shift_bytes [10, 126, 64, 240] [0x02, 0x13, 0x0A, 0x08] 1 0x03 = some [10, 146, 76, 251] := by
    decide
  exact shift_bytes_roundtrip [10, 126, 64, 240] _ 1 0x03 _ (by decide) h

/-! ## Byte-buffer utilities (`fs-lib/src/buffer.rs`)

Rust strings are represented by their UTF-8 byte sequences, so a `&str` and
the byte buffer holding it are the same `List Nat`. -/

/-- UTF-8 bytes of an ASCII string literal (all literals used here are
ASCII, for which `Char.toNat` is the byte value). -/
def strBytes (s : String) : List Nat := s.data.map Char.toNat

/-- One continuation byte `0x80..=0xBF`. -/
def isCont (c : Nat) : Bool := 0x80 ≤ c && c ≤ 0xBF

/-- Standard UTF-8 validity over bytes, as checked by `std::str::from_utf8`
(rejecting overlong forms, surrogates and values above U+10FFFF). -/
def validUtf8 : List Nat → Bool
  | [] => true
  | c :: r =>
    if c ≤ 0x7F then validUtf8 r
    else if 0xC2 ≤ c && c ≤ 0xDF then
      match r with
      | c1 :: r' => isCont c1 && validUtf8 r'
      | [] => false
    else if c = 0xE0 then
      match r with
      | c1 :: c2 :: r' => (0xA0 ≤ c1 && c1 ≤ 0xBF) && isCont c2 && validUtf8 r'
      | _ => false
    else if (0xE1 ≤ c && c ≤ 0xEC) || (0xEE ≤ c && c ≤ 0xEF) then
      match r with
      | c1 :: c2 :: r' => isCont c1 && isCont c2 && validUtf8 r'
      | _ => false
    else if c = 0xED then
      match r with
      | c1 :: c2 :: r' => (0x80 ≤ c1 && c1 ≤ 0x9F) && isCont c2 && validUtf8 r'
      | _ => false
    else if c = 0xF0 then
      match r with
      | c1 :: c2 :: c3 :: r' => (0x90 ≤ c1 && c1 ≤ 0xBF) && isCont c2 && isCont c3 && validUtf8 r'
      | _ => false
    else if 0xF1 ≤ c && c ≤ 0xF3 then
      match r with
      | c1 :: c2 :: c3 :: r' => isCont c1 && isCont c2 && isCont c3 && validUtf8 r'
      | _ => false
    else if c = 0xF4 then
      match r with
      | c1 :: c2 :: c3 :: r' => (0x80 ≤ c1 && c1 ≤ 0x8F) && isCont c2 && isCont c3 && validUtf8 r'
      | _ => false
    else false

/-- `BufferExtension::to_string` / `std::str::from_utf8`: succeeds exactly on
valid UTF-8 and returns the same bytes (a Rust `String` is its UTF-8
bytes). -/
def bufToString (b : List Nat) : Option (List Nat) :=
  if validUtf8 b then some b else none

/-- `Vec::splice(start..stop, repl)`. -/
def splice (b : List Nat) (start stop : Nat) (repl : List Nat) : List Nat :=
  b.take start ++ repl ++ b.drop stop

/-- `BufferExtension::find_bytes`: position of the first window equal to
`pat` (`windows` panics on an empty pattern; modelled as `none`, and never
invoked that way). -/
def find_bytes (b pat : List Nat) : Option Nat :=
  if pat = [] then none else go 0 b
where
  go (i : Nat) : List Nat → Option Nat
    | [] => none
    | c :: rest =>
      if (c :: rest).length < pat.length then none
      else if pat.isPrefixOf (c :: rest) then some i
      else go (i + 1) rest

/-- `BufferExtension::find_bytes_from`: searches the suffix starting at
`offset` and returns a position relative to that suffix. -/
def find_bytes_from (b pat : List Nat) (offset : Nat) : Option Nat :=
  find_bytes (b.drop offset) pat

/-- `BufferExtension::find_and_replace` (buffer.rs lines 143-154).  The Rust
loop runs `i` while `i <= self.len() - find.len()` in `usize` arithmetic:
when `self.len() < find.len()` the subtraction wraps, the guard passes and
the subsequent slice `self[i..i + find.len()]` panics — modelled as `none`.
An empty `find` makes the Rust loop diverge; the fuel (which is sufficient
for every non-empty `find`) runs out and the model returns `none`. -/
def farGo (find repl : List Nat) : Nat → Nat → List Nat → Option (List Nat)
  | 0, _, _ => none
  | fuel + 1, i, b =>
    if b.length < find.length then none
    else if b.length - find.length < i then some b
    else if (b.drop i).take find.length = find then
      farGo find repl fuel (i + repl.length) (splice b i (i + find.length) repl)
    else farGo find repl fuel (i + 1) b

/-- `BufferExtension::find_and_replace`, starting at `offset`. -/
def find_and_replace (b find repl : List Nat) (offset : Nat) : Option (List Nat) :=
  farGo find repl (b.length + 1) offset b

/-- `BufferExtension::find_and_replace_string`. -/
def find_and_replace_string (b : List Nat) (find repl : String) (offset : Nat) :
    Option (List Nat) :=
  find_and_replace b (strBytes find) (strBytes repl) offset

/-! ## Decode entry (`fs-luau-decompile/src/main.rs`, lines 47-70) -/

/-- `fs_lib::ByteshiftTable`. -/
structure ByteshiftTable where
  bytes : List Nat
  offset : Nat
  mask : Nat
  deriving DecidableEq

/-- The `LUAU_DECODE_TABLES` catalog from `fs-lib/src/lib.rs` (lines
212-247), keyed by `(version, is_dlc)`; the `HashMap` is modelled as an
association list with the same (distinct) keys. -/
def LUAU_DECODE_TABLES : List ((Nat × Bool) × ByteshiftTable) :=
  [ ((3, false), ⟨[0x02, 0x13, 0x0A, 0x08, 0x01, 0x07, 0x02, 0x02], 0, 0x07⟩),
    ((6, false), ⟨[0x02, 0x13, 0x0A, 0x08, 0x01, 0x07, 0x02, 0x02], 0, 0x07⟩),
    ((3, true), ⟨[0x14, 0x05, 0x0F, 0x0B, 0x01, 0x08, 0x02, 0x03,
                  0x03, 0x08, 0x04, 0x03, 0x01, 0x04, 0x07, 0x08], 0, 0x0f⟩),
    ((6, true), ⟨[0x14, 0x05, 0x0F, 0x0B, 0x01, 0x08, 0x02, 0x03,
                  0x03, 0x08, 0x04, 0x03, 0x01, 0x04, 0x07, 0x08], 0, 0x0f⟩) ]

/-- `get_bytecode_info` (main.rs lines 47-59): matches `&buffer[0..3]`, which
panics (`none`) when the buffer holds fewer than 3 bytes.  Returns
`(version, is_encoded, is_dlc)`. -/
def get_bytecode_info (b : List Nat) : Option (Nat × Bool × Bool) :=
  match b with
  | b0 :: b1 :: b2 :: _ =>
    some (match b0, b1, b2 with
      | 0x03, 0x00, 0xF2 => (6, true, true)
      | 0x02, 0xEF, _ => (3, true, false)
      | 0x03, 0xFD, _ => (3, true, true)
      | 0x02, 0xF0, _ => (4, true, false)
      | 0x02, 0xF2, _ => (6, true, false)
      | 0x06, 0x03, _ => (6, false, false)
      | 0x03, _, _ => (3, false, false)
      | 0x04, _, _ => (4, false, false)
      | _, _, _ => (0, false, false))
  | _ => none

inductive DecodeErr
  | noTable
  | crashed
  deriving DecidableEq

/-- `decode_bytecode` (main.rs lines 61-70): looks up the byteshift table for
`(version, is_dlc)`, applies `shift_bytes` with the table's own offset and
mask, then `Vec::remove(0)` discards the first byte (`remove` panics on an
empty buffer — `crashed`). -/
def decode_bytecode (b : List Nat) (version : Nat) (is_dlc : Bool) :
    Except DecodeErr (List Nat) :=
  match List.lookup (version, is_dlc) LUAU_DECODE_TABLES with
  | none => .error .noTable
  | some table =>
    match shift_bytes b table.bytes table.offset table.mask with
    | none => .error .crashed
    | some shifted =>
      match shifted with
      | [] => .error .crashed
      | _ :: rest => .ok rest

theorem lookup_luau_tables {k : Nat × Bool} {t : ByteshiftTable}
    (h : List.lookup k LUAU_DECODE_TABLES = some t) :
    t.offset = 0 ∧ t.mask < t.bytes.length := by
  simp only [LUAU_DECODE_TABLES, List.lookup] at h
  split at h
  · cases h; decide
  · split at h
    · cases h; decide
    · split at h
      · cases h; decide
      · split at h
        · cases h; decide
        · cases h

theorem shiftLoop_total (table : List Nat) (offset mask : Nat)
    (step : Nat → Nat → Nat → Nat) (hmask : mask < table.length) :
    ∀ (b : List Nat) (i : Nat),
      ∃ out, shiftLoop table offset mask step i b = some out ∧ out.length = b.length := by
  intro b
  induction b with
  | nil => intro i; exact ⟨[], rfl, rfl⟩
  | cons v rest ih =>
    intro i
    obtain ⟨out, hout, hlen⟩ := ih (i + 1)
    by_cases hio : i < offset
    · exact ⟨v :: out, by simp [shiftLoop, hio, hout], by simp [hlen]⟩
    · have hidx : i &&& mask < table.length :=
        lt_of_le_of_lt (Nat.and_le_right) hmask
      cases hget : table.get? (i &&& mask) with
      | none =>
        have := List.get?_eq_none.mp hget
        omega
      | some t =>
        exact ⟨step v t i :: out,
          by simp only [shiftLoop, if_neg hio, hget, hout, Option.map_some'],
          by simp [hlen]⟩

theorem get_bytecode_info_length {b : List Nat} {x : Nat × Bool × Bool}
    (h : get_bytecode_info b = some x) : 3 ≤ b.length := by
  match b with
  | [] | [_] | [_, _] => simp [get_bytecode_info] at h
  | _ :: _ :: _ :: _ => simp

/-- **C10.** For every input buffer recognised as encoded (obfuscated) whose
`(version, is_dlc)` key has a byteshift table, `decode_bytecode` applies the
shift over the whole buffer (every catalog table has `offset = 0`) and then
removes the first byte: it succeeds, the output is the tail of the shifted
buffer (so the structural decoder never sees the leading magic/sentinel
byte), and the output length is exactly one less than the input length. -/
theorem decode_bytecode_drops_sentinel (b : List Nat) (v : Nat) (dlc : Bool)
    (t : ByteshiftTable)
    (hinfo : get_bytecode_info b = some (v, true, dlc))
    (htable : List.lookup (v, dlc) LUAU_DECODE_TABLES = some t) :
    ∃ shifted, shift_bytes b t.bytes t.offset t.mask = some shifted ∧
      t.offset = 0 ∧
      decode_bytecode b v dlc = .ok (shifted.drop 1) ∧
      (shifted.drop 1).length = b.length - 1 := by
  obtain ⟨hoff, hmask⟩ := lookup_luau_tables htable
  obtain ⟨shifted, hshift, hlen⟩ :=
    shiftLoop_total t.bytes t.offset t.mask (fun v t i => wadd (wadd v t) i) hmask b 0
  have hb3 : 3 ≤ b.length := get_bytecode_info_length hinfo
  have hshift' : shift_bytes b t.bytes t.offset t.mask = some shifted := hshift
  refine ⟨shifted, hshift', hoff, ?_, ?_⟩
  · cases shifted with
    | nil => simp at hlen; omega
    | cons s0 srest =>
      simp [decode_bytecode, htable, hshift']
  · simp only [List.length_drop, hlen]

/-- Witness for `decode_bytecode_drops_sentinel` on a concrete encoded
buffer. -/
theorem decode_bytecode_drops_sentinel_witness :
    ∃ shifted,
      shift_bytes [0x02, 0xEF, 0x00] [0x02, 0x13, 0x0A, 0x08, 0x01, 0x07, 0x02, 0x02] 0 0x07 =
        some shifted ∧
      (0 : Nat) = 0 ∧
      decode_bytecode [0x02, 0xEF, 0x00] 3 false = .ok (shifted.drop 1) ∧
      (shifted.drop 1).length = [0x02, 0xEF, 0x00].length - 1 :=
  decode_bytecode_drops_sentinel [0x02, 0xEF, 0x00] 3 false
    ⟨[0x02, 0x13, 0x0A, 0x08, 0x01, 0x07, 0x02, 0x02], 0, 0x07⟩ (by decide) (by decide)

/-! ## nom-style parsing primitives

Parsers take the remaining input and return either the rest plus a value, or
a failure.  `PFail.err rest` models a `nom` error and carries the input seen
by the failing parser (so the detection offset is the original length minus
`rest.length`); `PFail.crashed` models a Rust panic (an explicit panic macro
or an out-of-bounds index). -/

inductive PFail
  | err (rest : List Nat)
  | crashed
  deriving DecidableEq

abbrev PRes (α : Type) := Except PFail (List Nat × α)

/-- Sequencing for `PRes` (threading the remaining input). -/
def pbind {α β : Type} (r : PRes α) (f : List Nat → α → PRes β) : PRes β :=
  match r with
  | .error e => .error e
  | .ok (input, a) => f input a

/-- `nom::number::complete::le_u8`. -/
def le_u8 : List Nat → PRes Nat
  | [] => .error (.err [])
  | b :: r => .ok (r, b)

/-- `nom::number::complete::le_u32` (little endian, 4 bytes). -/
def le_u32 (input : List Nat) : PRes Nat :=
  match input with
  | b0 :: b1 :: b2 :: b3 :: r =>
    .ok (r, b0 + 256 * b1 + 65536 * b2 + 16777216 * b3)
  | _ => .error (.err input)

/-- `nom::bytes::complete::take`. -/
def takeP (n : Nat) (input : List Nat) : PRes (List Nat) :=
  if n ≤ input.length then .ok (input.drop n, input.take n) else .error (.err input)

/-- `nom::character::complete::char('\0')`. -/
def char0 (input : List Nat) : PRes Unit :=
  match input with
  | 0 :: r => .ok (r, ())
  | _ => .error (.err input)

/-- `nom_leb128::leb128_usize`: base-128 continuation encoding.  The
accumulator wraps modulo `2 ^ 64` (`usize`); an encoding that would shift
past 64 bits fails, as does running out of input mid-number. -/
def leb128Go (orig : List Nat) : List Nat → Nat → Nat → PRes Nat
  | [], _, _ => .error (.err orig)
  | b :: r, shift, acc =>
    if 64 ≤ shift then .error (.err orig)
    else
      let acc := (acc + (b % 128) * 2 ^ shift) % 2 ^ 64
      if b < 128 then .ok (r, acc) else leb128Go orig r (shift + 7) acc

def leb128 (input : List Nat) : PRes Nat := leb128Go input input 0 0

/-- `nom::multi::count`. -/
def countP {α : Type} (p : List Nat → PRes α) : Nat → List Nat → PRes (List α)
  | 0, input => .ok (input, [])
  | n + 1, input =>
    pbind (p input) fun input x =>
    pbind (countP p n input) fun input xs =>
    .ok (input, x :: xs)

/-- `parse_list` (util.rs lines 19-26): LEB128 length prefix, then that many
items. -/
def parse_list {α : Type} (p : List Nat → PRes α) (input : List Nat) : PRes (List α) :=
  pbind (leb128 input) fun input length =>
  countP p length input

/-- `parse_list_len` (util.rs lines 28-35): a given number of items. -/
def parse_list_len {α : Type} (p : List Nat → PRes α) (input : List Nat) (length : Nat) :
    PRes (List α) :=
  countP p length input

/-- `parse_string` (util.rs lines 37-41): LEB128 length prefix, then that
many raw bytes. -/
def parse_string (input : List Nat) : PRes (List Nat) :=
  pbind (leb128 input) fun input length =>
  takeP length input

/-- `nom::multi::many_till(leb128_usize, char('\0'))`, result discarded
(util.rs line 63).  Each round consumes at least one byte, so the fuel
`input.length + 1` never runs out on the paths the program takes. -/
def manyTillNull : Nat → List Nat → PRes Unit
  | 0, input => .error (.err input)
  | fuel + 1, input =>
    match char0 input with
    | .ok (rest, _) => .ok (rest, ())
    | .error _ =>
      pbind (leb128 input) fun rest _ =>
      manyTillNull fuel rest

/-! ## The prototype model (`fs-luau-decompile/src/luau/prototype.rs`) -/

structure Local where
  name : List Nat
  scope_start : Nat
  scope_end : Nat
  register : Nat
  deriving DecidableEq

structure Prototype where
  name : Option (List Nat)
  locals : List Local
  upvalues : List (List Nat)
  file_scope : Option (Nat × Nat)
  deriving DecidableEq

/-- Stable insertion into an ascending-by-key list (a new element goes after
existing elements with an equal key). -/
def insertByKey {α : Type} (key : α → Nat) (x : α) : List α → List α
  | [] => [x]
  | y :: r => if key y ≤ key x then y :: insertByKey key x r else x :: y :: r

/-- Stable ascending sort by key.  Rust's `sort_by` is a stable sort; any two
stable sorts with the same key agree, so the model uses stable insertion
sort. -/
def sortByKey {α : Type} (key : α → Nat) (l : List α) : List α :=
  l.foldl (fun acc x => insertByKey key x acc) []

/-- `Prototype::get_locals` (prototype.rs lines 21-31): true locals
(`scope_start > 0`) ordered by ascending `scope_start`, names only. -/
def Prototype.get_locals (p : Prototype) : List (List Nat) :=
  (sortByKey (fun l => l.scope_start) (p.locals.filter (fun l => 0 < l.scope_start))).map
    (fun l => l.name)

/-- `Prototype::get_parameters` (prototype.rs lines 33-43): parameters
(`scope_start == 0`) ordered by ascending register, names only. -/
def Prototype.get_parameters (p : Prototype) : List (List Nat) :=
  (sortByKey (fun l => l.register) (p.locals.filter (fun l => l.scope_start = 0))).map
    (fun l => l.name)

/-- The interval count of the absolute line-info list (prototype.rs line
124): `((instructions.len() - 1) >> line_gap_log2) + 1` in wrapping `usize`
arithmetic (for zero instructions the subtraction wraps around `2 ^ 64`). -/
def lineIntervals (instrCount gapLog2 : Nat) : Nat :=
  ((((instrCount + (2 ^ 64 - 1)) % 2 ^ 64) >>> gapLog2) + 1) % 2 ^ 64

/-- The line-info section of a prototype (prototype.rs lines 90-133): a
"has line info" flag byte; when nonzero, a log2 interval byte, one delta byte
per instruction, then `lineIntervals` 4-byte absolute values, of which only
the last is retained (`file_scope_start`, 0 when absent).  The source spreads
this over three `match has_line_info` blocks on the same flag; they are fused
into one branch here. -/
def parse_line_info (input : List Nat) (instrCount : Nat) : PRes Nat :=
  pbind (le_u8 input) fun input has_line_info =>
  if has_line_info = 0 then .ok (input, 0)
  else
    pbind (le_u8 input) fun input line_gap_log2 =>
    pbind (parse_list_len le_u8 input instrCount) fun input _line_info_delta =>
    pbind (parse_list_len le_u32 input (lineIntervals instrCount line_gap_log2))
      fun input abs_line_info_delta =>
    .ok (input, abs_line_info_delta.getLastD 0)

/-- Resolution of a local's name index (prototype.rs lines 154-157): index 0
means unnamed; otherwise `symbol_table[index - 1]` is read directly — a Rust
panic (`crashed`) when out of range — and invalid UTF-8 falls back to
`"NOT_FOUND"` via `unwrap_or`. -/
def resolveLocalName (st : List (List Nat)) (index : Nat) :
    Except PFail (Option (List Nat)) :=
  if index = 0 then .ok none
  else
    match st.get? (index - 1) with
    | none => .error .crashed
    | some bytes => .ok (some (if validUtf8 bytes then bytes else strBytes "NOT_FOUND"))

/-- The locals loop (prototype.rs lines 150-172): per entry a name index,
scope start, scope end (LEB128) and a register byte; unnamed entries are
dropped. -/
def localsLoop (st : List (List Nat)) : Nat → List Nat → PRes (List Local)
  | 0, input => .ok (input, [])
  | n + 1, input =>
    pbind (leb128 input) fun input index =>
    match resolveLocalName st index with
    | .error e => .error e
    | .ok name =>
      pbind (leb128 input) fun input scope_start =>
      pbind (leb128 input) fun input scope_end =>
      pbind (le_u8 input) fun input register =>
      pbind (localsLoop st n input) fun input rest =>
      .ok (input,
        match name with
        | some nm => { name := nm, scope_start := scope_start, scope_end := scope_end,
                       register := register } :: rest
        | none => rest)

/-- The upvalues loop (prototype.rs lines 182-192): per entry a name index;
index 0 entries are dropped, other indexes are read directly from the symbol
table (panicking when out of range), with the `"NOT_FOUND"` UTF-8
fallback. -/
def upvaluesLoop (st : List (List Nat)) : Nat → List Nat → PRes (List (List Nat))
  | 0, input => .ok (input, [])
  | n + 1, input =>
    pbind (leb128 input) fun input index =>
    if 0 < index then
      match st.get? (index - 1) with
      | none => .error .crashed
      | some bytes =>
        pbind (upvaluesLoop st n input) fun input rest =>
        .ok (input, (if validUtf8 bytes then bytes else strBytes "NOT_FOUND") :: rest)
    else
      upvaluesLoop st n input

/-- The debug-info section (prototype.rs lines 135-192): a flag byte; when
zero both list lengths are 0 and nothing further is read, otherwise each list
has a LEB128 length prefix. -/
def parse_debug_info (input : List Nat) (st : List (List Nat)) :
    PRes (List Local × List (List Nat)) :=
  pbind (le_u8 input) fun input debug_info =>
  pbind (if debug_info = 0 then .ok (input, 0) else leb128 input) fun input num_locals =>
  pbind (localsLoop st num_locals input) fun input locals =>
  pbind (if debug_info = 0 then .ok (input, 0) else leb128 input) fun input num_upvalues =>
  pbind (upvaluesLoop st num_upvalues input) fun input upvalues =>
  .ok (input, (locals, upvalues))

/-- `Prototype::parse_bytecode` (prototype.rs lines 56-205).  The per-item
parser for the constants list comes from `constant.rs`, which is not among
the provided sources, so it is a parameter `constParse` (the spec records
only that the list is length prefixed and its content discarded).  The
prototype-name index resolves through `symbol_table[index - 1]` (lines
81-88): out of range panics (`crashed`), invalid UTF-8 degrades to an
anonymous prototype.  `file_scope` is `(start, start + 1)` for named
prototypes — the `file_scope_lines` accumulator in the source is the
constant 0 (its accumulation loop is commented out). -/
def Prototype.parse_bytecode (constParse : List Nat → PRes Unit) (input : List Nat)
    (version : Nat) (symbol_table : List (List Nat)) : PRes Prototype :=
  pbind (le_u8 input) fun input _max_stack_size =>
  pbind (le_u8 input) fun input _num_params =>
  pbind (le_u8 input) fun input _num_upvalues =>
  pbind (le_u8 input) fun input _is_vararg =>
  pbind (if 4 ≤ version then
           pbind (le_u8 input) fun input _flags =>
           pbind (parse_list le_u8 input) fun input _ =>
           .ok (input, ())
         else .ok (input, ())) fun input _ =>
  pbind (parse_list le_u32 input) fun input instructions =>
  pbind (parse_list constParse input) fun input _constants =>
  pbind (parse_list leb128 input) fun input _functions =>
  pbind (leb128 input) fun input _line_defined =>
  pbind (leb128 input) fun input prototype_name_index =>
  match (if 0 < prototype_name_index then
           match symbol_table.get? (prototype_name_index - 1) with
           | none => .error PFail.crashed
           | some bytes => .ok (if validUtf8 bytes then some bytes else none)
         else .ok none : Except PFail (Option (List Nat))) with
  | .error e => .error e
  | .ok prototype_name =>
    pbind (parse_line_info input instructions.length) fun input file_scope_start =>
    pbind (parse_debug_info input symbol_table) fun input debug =>
    .ok (input,
      { name := prototype_name,
        locals := debug.1,
        upvalues := debug.2,
        file_scope :=
          if prototype_name.isSome then some (file_scope_start, file_scope_start + 1)
          else none })

/-- `u8_vec_to_string_vec` (util.rs lines 79-87): invalid UTF-8 entries are
replaced by the literal `"INVALID_UTF8"`. -/
def u8_vec_to_string_vec (l : List (List Nat)) : List (List Nat) :=
  l.map (fun e => if validUtf8 e then e else strBytes "INVALID_UTF8")

/-- `parse_input` (util.rs lines 43-77).  The version guard is modelled
exactly as written in the source: `if version < 3 && version > 6`, an
unsatisfiable conjunction, followed by `panic!` (`crashed`). -/
def parse_input (constParse : List Nat → PRes Unit) (input : List Nat) :
    PRes (Nat × List Prototype × List (List Nat)) :=
  pbind (le_u8 input) fun input version =>
  if version < 3 ∧ 6 < version then .error .crashed
  else
    pbind (if 4 ≤ version then le_u8 input else .ok (input, 0)) fun input types_version =>
    if 3 < types_version then .error .crashed
    else
      pbind (parse_list parse_string input) fun input symbol_table =>
      pbind (if types_version = 3 then manyTillNull (input.length + 1) input
             else .ok (input, ())) fun input _ =>
      pbind (parse_list
              (fun i => Prototype.parse_bytecode constParse i version symbol_table) input)
        fun input prototypes =>
      pbind (leb128 input) fun input main =>
      .ok (input, (main, prototypes, u8_vec_to_string_vec symbol_table))

/-! ## Theorems about the structural decoder -/

/-- **C2 (evaluation at the failing input).** The version guard in
`parse_input` is `if version < 3 && version > 6`, an unsatisfiable
conjunction, so no version byte is ever rejected by it: a well-formed buffer
with version byte `0x02` (empty symbol table, no prototypes, main index 0)
decodes successfully instead of failing with an unsupported-version error,
while versions 3, 4 and 6 also succeed. -/
theorem parse_input_version_check_dead (cp : List Nat → PRes Unit) :
    parse_input cp [2, 0, 0, 0] = .ok ([], (0, [], [])) ∧
    parse_input cp [3, 0, 0, 0] = .ok ([], (0, [], [])) ∧
    parse_input cp [4, 0, 0, 0, 0] = .ok ([], (0, [], [])) ∧
    parse_input cp [6, 0, 0, 0, 0] = .ok ([], (0, [], [])) :=
  ⟨rfl, rfl, rfl, rfl⟩

/-- **C6 (counterexample).** An out-of-range symbol-table index does not
produce a reported decode error: with an empty symbol table and a prototype
whose name index is 5, `Prototype::parse_bytecode` hits the direct index
`symbol_table[4]` and panics (`crashed`), rather than returning a decode
error naming a byte offset. -/
theorem parse_bytecode_oob_symbol_panics :
    Prototype.parse_bytecode (fun i => .ok (i, ())) [0, 0, 0, 0, 0, 0, 0, 0, 5] 3 [] =
      .error .crashed := rfl

/-! ### Short reads across the whole walk

`GoodParser p` captures how every primitive and combinator of this decoder
behaves with respect to truncation: a successful parse consumes a prefix of
`k` bytes (the rest is `i.drop k`), only those `k` bytes determine the
result (parsing any truncation of at least `k` bytes succeeds identically),
and parsing any shorter truncation fails with a `nom` error that carries the
remaining input at the failing primitive — i.e. the suffix of the truncated
input starting at the byte offset `j` where the short read was detected. -/
def GoodParser {α : Type} (p : List Nat → PRes α) : Prop :=
  ∀ i r v, p i = .ok (r, v) →
    ∃ k, k ≤ i.length ∧ r = i.drop k ∧
      (∀ m, k ≤ m → p (i.take m) = .ok ((i.take m).drop k, v)) ∧
      (∀ m, m < k → ∃ j, j ≤ m ∧ p (i.take m) = .error (.err ((i.take m).drop j)))

theorem goodParser_ret {α : Type} (v : α) : GoodParser (fun i => .ok (i, v)) := by
  intro i r w h
  cases h
  exact ⟨0, Nat.zero_le _, rfl, fun m _ => rfl, fun m hm => absurd hm (Nat.not_lt_zero m)⟩

theorem goodParser_err {α : Type} (e : PFail) :
    GoodParser (fun _ => (.error e : PRes α)) := by
  intro i r v h
  cases h

theorem goodParser_le_u8 : GoodParser le_u8 := by
  intro i r v h
  match i, h with
  | b :: t, h =>
    cases h
    refine ⟨1, by simp, rfl, ?_, ?_⟩
    · intro m hm
      obtain ⟨d, rfl⟩ := Nat.exists_eq_add_of_le' hm
      rfl
    · intro m hm
      have hm0 : m = 0 := by omega
      subst hm0
      exact ⟨0, Nat.le_refl 0, rfl⟩

theorem goodParser_le_u32 : GoodParser le_u32 := by
  intro i r v h
  match i, h with
  | [], h => cases h
  | [_], h => cases h
  | [_, _], h => cases h
  | [_, _, _], h => cases h
  | b0 :: b1 :: b2 :: b3 :: t, h =>
    cases h
    refine ⟨4, by simp, rfl, ?_, ?_⟩
    · intro m hm
      obtain ⟨d, rfl⟩ := Nat.exists_eq_add_of_le' hm
      rfl
    · intro m hm
      refine ⟨0, Nat.zero_le m, ?_⟩
      interval_cases m <;> rfl

theorem leb128Go_good :
    ∀ (t orig : List Nat) (shift acc : Nat) (r : List Nat) (v : Nat),
      leb128Go orig t shift acc = .ok (r, v) →
      ∃ k, 1 ≤ k ∧ k ≤ t.length ∧ r = t.drop k ∧
        (∀ (o : List Nat) (m : Nat), k ≤ m →
          leb128Go o (t.take m) shift acc = .ok ((t.take m).drop k, v)) ∧
        (∀ (o : List Nat) (m : Nat), m < k →
          leb128Go o (t.take m) shift acc = .error (.err o)) := by
  intro t
  induction t with
  | nil => intro orig shift acc r v h; cases h
  | cons b t ih =>
    intro orig shift acc r v h
    simp only [leb128Go] at h
    by_cases hsh : 64 ≤ shift
    · rw [if_pos hsh] at h; cases h
    · rw [if_neg hsh] at h
      by_cases hb : b < 128
      · rw [if_pos hb] at h
        cases h
        refine ⟨1, Nat.le_refl 1, by simp, rfl, ?_, ?_⟩
        · intro o m hm
          obtain ⟨d, rfl⟩ := Nat.exists_eq_add_of_le' hm
          simp only [List.take_succ_cons, leb128Go, if_neg hsh, if_pos hb,
            List.drop_succ_cons, List.drop_zero]
        · intro o m hm
          have hm0 : m = 0 := by omega
          subst hm0
          rfl
      · rw [if_neg hb] at h
        obtain ⟨k, hk1, hkl, hr, hstab, herr⟩ := ih orig (shift + 7) _ r v h
        refine ⟨k + 1, by omega, by simp; omega, by rw [hr]; rfl, ?_, ?_⟩
        · intro o m hm
          obtain ⟨d, rfl⟩ := Nat.exists_eq_add_of_le' (show 1 ≤ m by omega)
          simp only [List.take_succ_cons, leb128Go, if_neg hsh, if_neg hb,
            List.drop_succ_cons]
          exact hstab o d (by omega)
        · intro o m hm
          match m with
          | 0 => rfl
          | d + 1 =>
            simp only [List.take_succ_cons, leb128Go, if_neg hsh, if_neg hb]
            exact herr o d (by omega)

theorem goodParser_leb128 : GoodParser leb128 := by
  intro i r v h
  obtain ⟨k, _, hkl, hr, hstab, herr⟩ := leb128Go_good i i 0 0 r v h
  exact ⟨k, hkl, hr, fun m hm => hstab (i.take m) m hm,
    fun m hm => ⟨0, Nat.zero_le m, herr (i.take m) m hm⟩⟩

theorem goodParser_pbind {α β : Type} (p : List Nat → PRes α)
    (f : List Nat → α → PRes β)
    (hp : GoodParser p) (hf : ∀ x, GoodParser (fun i => f i x)) :
    GoodParser (fun i => pbind (p i) f) := by
  intro i r v h
  simp only [pbind] at h
  cases hpi : p i with
  | error e => rw [hpi] at h; cases h
  | ok out =>
    rcases out with ⟨i1, x⟩
    rw [hpi] at h
    dsimp only at h
    obtain ⟨k1, hk1, rfl, hstab1, herr1⟩ := hp i i1 x hpi
    obtain ⟨k2, hk2, rfl, hstab2, herr2⟩ := hf x (i.drop k1) r v h
    have hstab2' : ∀ m, k2 ≤ m →
        f ((i.drop k1).take m) x = .ok (((i.drop k1).take m).drop k2, v) := hstab2
    have herr2' : ∀ m, m < k2 → ∃ j, j ≤ m ∧
        f ((i.drop k1).take m) x = .error (.err (((i.drop k1).take m).drop j)) := herr2
    have hk2' : k2 ≤ i.length - k1 := by simpa using hk2
    have hcomm : ∀ m, k1 ≤ m → (i.take m).drop k1 = (i.drop k1).take (m - k1) := by
      intro m hm
      rw [List.take_drop, show k1 + (m - k1) = m from by omega]
    refine ⟨k1 + k2, by omega, by rw [List.drop_drop], ?_, ?_⟩
    · intro m hm
      simp only [pbind]
      rw [hstab1 m (by omega)]
      dsimp only
      rw [hcomm m (by omega), hstab2' (m - k1) (by omega)]
      rw [← hcomm m (by omega), List.drop_drop]
    · intro m hm
      by_cases hm1 : m < k1
      · obtain ⟨j, hj, herr⟩ := herr1 m hm1
        refine ⟨j, hj, ?_⟩
        simp only [pbind]
        rw [herr]
      · push_neg at hm1
        obtain ⟨j2, hj2, herr⟩ := herr2' (m - k1) (by omega)
        refine ⟨k1 + j2, by omega, ?_⟩
        simp only [pbind]
        rw [hstab1 m hm1]
        dsimp only
        rw [hcomm m hm1, herr, ← hcomm m hm1, List.drop_drop]

theorem goodParser_countP {α : Type} (p : List Nat → PRes α) (hp : GoodParser p) :
    ∀ n, GoodParser (countP p n) := by
  intro n
  induction n with
  | zero => exact goodParser_ret []
  | succ n ih =>
    exact goodParser_pbind p
      (fun input x => pbind (countP p n input) fun input xs => .ok (input, x :: xs)) hp
      (fun x => goodParser_pbind (countP p n)
        (fun input xs => .ok (input, x :: xs)) ih
        (fun xs => goodParser_ret (x :: xs)))

theorem goodParser_parse_list {α : Type} (p : List Nat → PRes α) (hp : GoodParser p) :
    GoodParser (parse_list p) :=
  goodParser_pbind leb128 (fun input length => countP p length input)
    goodParser_leb128 (fun length => goodParser_countP p hp length)

theorem goodParser_parse_line_info (n : Nat) :
    GoodParser (fun i => parse_line_info i n) := by
  refine goodParser_pbind le_u8 _ goodParser_le_u8 ?_
  intro has
  by_cases h : has = 0
  · simp only [if_pos h]
    exact goodParser_ret 0
  · simp only [if_neg h]
    refine goodParser_pbind le_u8 _ goodParser_le_u8 ?_
    intro k
    refine goodParser_pbind (fun i => parse_list_len le_u8 i n) _
      (goodParser_countP le_u8 goodParser_le_u8 n) ?_
    intro _deltas
    refine goodParser_pbind (fun i => parse_list_len le_u32 i (lineIntervals n k)) _
      (goodParser_countP le_u32 goodParser_le_u32 _) ?_
    intro abs
    exact goodParser_ret _

theorem goodParser_localsLoop (st : List (List Nat)) :
    ∀ n, GoodParser (localsLoop st n) := by
  intro n
  induction n with
  | zero => exact goodParser_ret []
  | succ n ih =>
    refine goodParser_pbind leb128 _ goodParser_leb128 ?_
    intro index
    cases hres : resolveLocalName st index with
    | error e =>
      simp only [hres]
      exact goodParser_err e
    | ok name =>
      simp only [hres]
      refine goodParser_pbind leb128 _ goodParser_leb128 ?_
      intro scope_start
      refine goodParser_pbind leb128 _ goodParser_leb128 ?_
      intro scope_end
      refine goodParser_pbind le_u8 _ goodParser_le_u8 ?_
      intro register
      refine goodParser_pbind (localsLoop st n) _ ih ?_
      intro rest
      exact goodParser_ret _

theorem goodParser_upvaluesLoop (st : List (List Nat)) :
    ∀ n, GoodParser (upvaluesLoop st n) := by
  intro n
  induction n with
  | zero => exact goodParser_ret []
  | succ n ih =>
    refine goodParser_pbind leb128 _ goodParser_leb128 ?_
    intro index
    by_cases hidx : 0 < index
    · simp only [if_pos hidx]
      cases hst : st.get? (index - 1) with
      | none =>
        simp only [hst]
        exact goodParser_err .crashed
      | some bytes =>
        simp only [hst]
        refine goodParser_pbind (upvaluesLoop st n) _ ih ?_
        intro rest
        exact goodParser_ret _
    · simp only [if_neg hidx]
      exact ih

theorem goodParser_parse_debug_info (st : List (List Nat)) :
    GoodParser (fun i => parse_debug_info i st) := by
  refine goodParser_pbind le_u8 _ goodParser_le_u8 ?_
  intro debug_info
  refine goodParser_pbind
    (fun input => if debug_info = 0 then .ok (input, 0) else leb128 input) _ ?_ ?_
  · by_cases h : debug_info = 0
    · simp only [if_pos h]
      exact goodParser_ret 0
    · simp only [if_neg h]
      exact goodParser_leb128
  · intro num_locals
    refine goodParser_pbind (localsLoop st num_locals) _
      (goodParser_localsLoop st num_locals) ?_
    intro locals
    refine goodParser_pbind
      (fun input => if debug_info = 0 then .ok (input, 0) else leb128 input) _ ?_ ?_
    · by_cases h : debug_info = 0
      · simp only [if_pos h]
        exact goodParser_ret 0
      · simp only [if_neg h]
        exact goodParser_leb128
    · intro num_upvalues
      refine goodParser_pbind (upvaluesLoop st num_upvalues) _
        (goodParser_upvaluesLoop st num_upvalues) ?_
      intro upvalues
      exact goodParser_ret _

/-- **C6 (amended).** Taken over the whole per-prototype walk: (1) the
decoder is a `GoodParser` whenever the constants parser is — so truncating
any successfully decoded prototype stream anywhere below its consumed length
(a short read in the header, type info, instruction, constant, child,
line-info or debug-info sections alike) yields a fatal `nom` decode error
carrying the remaining input at the byte offset where the short read was
detected, never a success or a panic; (2) in particular any input shorter
than the fixed 4-byte header fails at offset `input.length`; but (3) an
out-of-range symbol-table index is an index-out-of-bounds panic (`crashed`),
not a reported decode error, on all three lookup paths: the prototype-name
index (prototype.rs line 82), a local's name index (line 156), and an
upvalue's name index (line 187). -/
theorem parse_bytecode_short_read_and_oob (cp : List Nat → PRes Unit)
    (v : Nat) (st : List (List Nat)) (input : List Nat) (idx : Nat) :
    (GoodParser cp → GoodParser (fun i => Prototype.parse_bytecode cp i v st)) ∧
    (input.length < 4 → Prototype.parse_bytecode cp input v st = .error (.err [])) ∧
    (0 < idx → idx < 128 → st.length < idx →
      Prototype.parse_bytecode cp [0, 0, 0, 0, 0, 0, 0, 0, idx] 3 st =
        .error .crashed ∧
      Prototype.parse_bytecode cp [0, 0, 0, 0, 0, 0, 0, 0, 0, 0, 1, 1, idx] 3 st =
        .error .crashed ∧
      Prototype.parse_bytecode cp [0, 0, 0, 0, 0, 0, 0, 0, 0, 0, 1, 0, 1, idx] 3 st =
        .error .crashed) := by
  refine ⟨?_, ?_, ?_⟩
  · intro hcp
    refine goodParser_pbind le_u8 _ goodParser_le_u8 ?_
    intro _max_stack_size
    refine goodParser_pbind le_u8 _ goodParser_le_u8 ?_
    intro _num_params
    refine goodParser_pbind le_u8 _ goodParser_le_u8 ?_
    intro _num_upvalues
    refine goodParser_pbind le_u8 _ goodParser_le_u8 ?_
    intro _is_vararg
    refine goodParser_pbind
      (fun input => if 4 ≤ v then
          pbind (le_u8 input) fun input _flags =>
          pbind (parse_list le_u8 input) fun input _ => .ok (input, ())
        else .ok (input, ())) _ ?_ ?_
    · by_cases h4 : 4 ≤ v
      · simp only [if_pos h4]
        refine goodParser_pbind le_u8 _ goodParser_le_u8 ?_
        intro _flags
        refine goodParser_pbind (parse_list le_u8) _
          (goodParser_parse_list le_u8 goodParser_le_u8) ?_
        intro _
        exact goodParser_ret ()
      · simp only [if_neg h4]
        exact goodParser_ret ()
    · intro _
      refine goodParser_pbind (parse_list le_u32) _
        (goodParser_parse_list le_u32 goodParser_le_u32) ?_
      intro instructions
      refine goodParser_pbind (parse_list cp) _ (goodParser_parse_list cp hcp) ?_
      intro _constants
      refine goodParser_pbind (parse_list leb128) _
        (goodParser_parse_list leb128 goodParser_leb128) ?_
      intro _functions
      refine goodParser_pbind leb128 _ goodParser_leb128 ?_
      intro _line_defined
      refine goodParser_pbind leb128 _ goodParser_leb128 ?_
      intro prototype_name_index
      cases hname : (if 0 < prototype_name_index then
          match st.get? (prototype_name_index - 1) with
          | none => .error PFail.crashed
          | some bytes => .ok (if validUtf8 bytes then some bytes else none)
        else .ok none : Except PFail (Option (List Nat))) with
      | error e =>
        simp only [hname]
        exact goodParser_err e
      | ok prototype_name =>
        simp only [hname]
        refine goodParser_pbind (fun i => parse_line_info i instructions.length) _
          (goodParser_parse_line_info instructions.length) ?_
        intro file_scope_start
        refine goodParser_pbind (fun i => parse_debug_info i st) _
          (goodParser_parse_debug_info st) ?_
        intro debug
        exact goodParser_ret _
  · intro h
    match input with
    | [] => rfl
    | [_] => rfl
    | [_, _] => rfl
    | [_, _, _] => rfl
    | _ :: _ :: _ :: _ :: _ => exfalso; simp at h; omega
  · intro hpos hlt hoob
    have hne : idx ≠ 0 := by omega
    have hmod : idx % 128 = idx := Nat.mod_eq_of_lt hlt
    have hmod64 : idx % 18446744073709551616 = idx :=
      Nat.mod_eq_of_lt (by omega)
    have hget : st[idx - 1]? = none := List.getElem?_eq_none (by omega)
    refine ⟨?_, ?_, ?_⟩ <;>
      simp [Prototype.parse_bytecode, pbind, le_u8, parse_list, countP, leb128, leb128Go,
        parse_line_info, parse_debug_info, localsLoop, upvaluesLoop, resolveLocalName,
        hmod, hmod64, hget, hpos, hlt, hne]

/-- Witness for `parse_bytecode_short_read_and_oob`: a well-formed anonymous
prototype stream of 11 bytes decodes fully; truncating it to 10 bytes (mid
line-info section, past the header and every list) yields a decode error
locating the short read; a 3-byte input fails at offset 3; and index 5
against an empty symbol table panics on the name, locals and upvalues lookup
paths. -/
theorem parse_bytecode_short_read_and_oob_witness :
    (∃ j, j ≤ 10 ∧
      Prototype.parse_bytecode (fun i => .ok (i, ()))
          (([0, 0, 0, 0, 0, 0, 0, 0, 0, 0, 0] : List Nat).take 10) 3 [] =
        .error (.err ((([0, 0, 0, 0, 0, 0, 0, 0, 0, 0, 0] : List Nat).take 10).drop j))) ∧
    Prototype.parse_bytecode (fun i => .ok (i, ())) [0, 1, 2] 3 [] = .error (.err []) ∧
    Prototype.parse_bytecode (fun i => .ok (i, ())) [0, 0, 0, 0, 0, 0, 0, 0, 5] 3 [] =
      .error .crashed ∧
    Prototype.parse_bytecode (fun i => .ok (i, ())) [0, 0, 0, 0, 0, 0, 0, 0, 0, 0, 1, 1, 5]
        3 [] = .error .crashed ∧
    Prototype.parse_bytecode (fun i => .ok (i, ()))
        [0, 0, 0, 0, 0, 0, 0, 0, 0, 0, 1, 0, 1, 5] 3 [] = .error .crashed := by
  have hthm := parse_bytecode_short_read_and_oob (fun i => .ok (i, ())) 3 [] [0, 1, 2] 5
  have hoob := hthm.2.2 (by decide) (by decide) (by decide)
  refine ⟨?_, hthm.2.1 (by decide), hoob.1, hoob.2.1, hoob.2.2⟩
  have hgood := hthm.1 (goodParser_ret ())
  have hfull : Prototype.parse_bytecode (fun i => .ok (i, ()))
      [0, 0, 0, 0, 0, 0, 0, 0, 0, 0, 0] 3 [] =
      .ok ([], { name := none, locals := [], upvalues := [], file_scope := none }) := rfl
  obtain ⟨k, hk, hrest, hstab, herr⟩ := hgood [0, 0, 0, 0, 0, 0, 0, 0, 0, 0, 0] _ _ hfull
  have hk11 : k = 11 := by
    have := List.drop_eq_nil_iff.mp hrest.symm
    simp at this hk
    omega
  subst hk11
  exact herr 10 (by omega)

/-- ASCII whitespace (regex `\s`, `char::is_whitespace` on ASCII). -/
def isWs (c : Nat) : Bool := c = 32 || c = 9 || c = 10 || c = 13 || c = 11 || c = 12

/-- The class `[A-z0-9.]` — note `A-z` spans ASCII 65..122, which includes
`[ \ ] ^ _` and the backtick. -/
def isCls (c : Nat) : Bool := (65 ≤ c && c ≤ 122) || (48 ≤ c && c ≤ 57) || c = 46

/-- Regex `\w`: ASCII letters, digits and underscore. -/
def isWord (c : Nat) : Bool :=
  (65 ≤ c && c ≤ 90) || (97 ≤ c && c ≤ 122) || (48 ≤ c && c ≤ 57) || c = 95

/-- `str::trim` (ASCII whitespace from both ends). -/
def trimBytes (s : List Nat) : List Nat :=
  ((s.dropWhile isWs).reverse.dropWhile isWs).reverse

/-- The literal name followed by `\(`. -/
def sigName (name s : List Nat) : Bool := (name ++ [40]).isPrefixOf s

/-- Inside the optional group `([A-z0-9.]+)?` after at least one class
character: stop and match the name, or consume one more class character. -/
def sigAfterGroup (name : List Nat) : List Nat → Bool
  | [] => false
  | c :: r => sigName name (c :: r) || (isCls c && sigAfterGroup name r)

/-- After the literal `"function "`: `\s*` then the optional qualified-name
group then the name then `(` (all backtracking expansions). -/
def sigTail (name : List Nat) : List Nat → Bool
  | [] => false
  | c :: r =>
    sigName name (c :: r) || (isCls c && sigAfterGroup name r) || (isWs c && sigTail name r)

/-- Whether the pattern `function \s*([A-z0-9.]+)?NAME\(` matches starting at
byte `p` of `buffer`. -/
def matchesSigAt (name buffer : List Nat) (p : Nat) : Bool :=
  (strBytes "function ").isPrefixOf (buffer.drop p) && sigTail name (buffer.drop (p + 9))

def findSigGo (name buffer : List Nat) : Nat → Nat → Option Nat
  | 0, _ => none
  | fuel + 1, p => if matchesSigAt name buffer p then some p else findSigGo name buffer fuel (p + 1)

/-- `find_position_of_function` (util.rs lines 226-250): `none` on invalid
UTF-8 input, otherwise the start of the first pattern match at or after
`offset`. -/
def find_position_of_function (buffer name : List Nat) (offset : Nat) : Option Nat :=
  if validUtf8 buffer then findSigGo name buffer (buffer.length + 1 - offset) offset
  else none

/-- Scan for the closing `\)` of `\((.*?)\)` (the lazy dot does not cross a
newline). -/
def scanClose : List Nat → List Nat → Option (List Nat)
  | [], _ => none
  | c :: r, acc =>
    if c = 41 then some acc.reverse
    else if c = 10 then none
    else scanClose r (c :: acc)

/-- Regex `\((.*?)\)` on the signature line: the first `(` from which a `)`
is reachable without crossing a newline, capturing the bytes between. -/
def extractParens : List Nat → Option (List Nat)
  | [] => none
  | c :: r =>
    if c = 40 then
      match scanClose r [] with
      | some cap => some cap
      | none => extractParens r
    else extractParens r

/-- `str::split(",")`: splits on every comma, keeping empty pieces (`""`
splits to `[""]`). -/
def splitOnComma : List Nat → List (List Nat)
  | [] => [[]]
  | c :: r =>
    if c = 44 then [] :: splitOnComma r
    else
      match splitOnComma r with
      | h :: t => (c :: h) :: t
      | [] => [[c]]

/-- One candidate of `\b(\w+\.\w+)\(` at the current position (the leading
`\b` is checked by the caller): a maximal word run, a dot, a maximal word
run, then `(`; only maximal runs can be followed by `.`/`(`, so greedy
backtracking degenerates to this. -/
def classPathAt (s : List Nat) : Option (List Nat) :=
  let w1 := s.takeWhile isWord
  if w1 = [] then none
  else
    match s.drop w1.length with
    | 46 :: r2 =>
      let w2 := r2.takeWhile isWord
      if w2 = [] then none
      else
        match r2.drop w2.length with
        | 40 :: _ => some (w1 ++ [46] ++ w2)
        | _ => none
    | _ => none

def classPathGo : Option Nat → List Nat → Option (List Nat)
  | _, [] => none
  | prev, c :: r =>
    if (match prev with | none => true | some q => !isWord q) then
      match classPathAt (c :: r) with
      | some cap => some cap
      | none => classPathGo (some c) r
    else classPathGo (some c) r

/-- `FunctionParser::get_class_path` (parser.rs lines 85-90): first capture
of `\b(\w+\.\w+)\(` in the signature text. -/
def get_class_path (definition : List Nat) : Option (List Nat) :=
  classPathGo none definition

/-- `str::replace(".", ":")` on a path (single-byte characters). -/
def dotToColon (s : List Nat) : List Nat := s.map (fun c => if c = 46 then 58 else c)

/-- `Vec<String>::join(", ")`. -/
def joinCommaSpace (l : List (List Nat)) : List Nat := List.intercalate [44, 32] l

structure FunctionParser where
  name : List Nat
  position : Nat
  initial_size : Nat
  parameters : List (List Nat)
  definition : List Nat
  definition_parameters : List (List Nat)
  definition_parameters_str : List Nat
  has_self : Bool
  deriving DecidableEq

/-- `FunctionParser::from` (parser.rs lines 93-150).  Returns the optional
parser together with the (possibly spliced) buffer; the outer `Option` is
the `Result`, which only fails (`none`) when the located signature slice is
not valid UTF-8 (`to_string()?`).  All skip paths return the buffer
untouched; only on full success is the `\r\n` pair spliced in before the
match and the stored position advanced past it. -/
def FunctionParser.from (buffer : List Nat) (proto : Prototype) :
    Option (Option FunctionParser × List Nat) :=
  let parameters := proto.get_parameters
  if proto.name.isNone || parameters.length == 0 then some (none, buffer)
  else
    let name := proto.name.getD []
    match find_position_of_function buffer name 0 with
    | none => some (none, buffer)
    | some position =>
      match find_bytes_from buffer [0x0A] position with
      | none => some (none, buffer)
      | some initial_size =>
        match bufToString ((buffer.drop position).take initial_size) with
        | none => none
        | some definition =>
          match extractParens definition with
          | none => some (none, buffer)
          | some definition_parameters_str =>
            let definition_parameters := splitOnComma definition_parameters_str
            if definition_parameters_str.length == 0 ||
                definition_parameters.length != parameters.length then
              some (none, buffer)
            else
              some (some { name := name, position := position + 2,
                           initial_size := initial_size, parameters := parameters,
                           definition := definition,
                           definition_parameters := definition_parameters,
                           definition_parameters_str := definition_parameters_str,
                           has_self := false },
                    splice buffer position position [0x0D, 0x0A])

/-- The `mapped_parameters` vector (parser.rs lines 32-38): trimmed original
names paired with the bytecode-recovered names; `parameters.get(i).unwrap()`
panics (`none`) when the recovered list is shorter. -/
def mapPairs (params : List (List Nat)) : List (List Nat) → Nat →
    Option (List (List Nat × List Nat))
  | [], _ => some []
  | d :: rest, i =>
    match params.get? i with
    | none => none
    | some nm => (mapPairs params rest (i + 1)).map (fun l => (trimBytes d, nm) :: l)

/-- The per-pair loop of `rename_parameters` (parser.rs lines 40-51):
records `has_self`, and substitutes the pair throughout the function's
extent unless the original name is the underscore placeholder. -/
def renameLoop (pos : Nat) : List (List Nat × List Nat) → Bool → List Nat →
    Option (Bool × List Nat)
  | [], hs, buffer => some (hs, buffer)
  | (dn, nm) :: rest, hs, buffer =>
    let hs := hs || dn == strBytes "self" || nm == strBytes "self"
    if dn ≠ strBytes "_" then
      match find_and_replace buffer dn nm pos with
      | none => none
      | some buffer => renameLoop pos rest hs buffer
    else renameLoop pos rest hs buffer

/-- `FunctionParser::rename_parameters` (parser.rs lines 24-54): replace the
parenthesised original parameter string by the recovered one once from
offset 0, then run the per-pair loop from the parser's position. -/
def FunctionParser.rename_parameters (p : FunctionParser) (buffer : List Nat) :
    Option (FunctionParser × List Nat) :=
  match find_and_replace buffer ([40] ++ p.definition_parameters_str ++ [41])
      ([40] ++ joinCommaSpace p.parameters ++ [41]) 0 with
  | none => none
  | some buffer1 =>
    match mapPairs p.parameters p.definition_parameters 0 with
    | none => none
    | some pairs =>
      match renameLoop p.position pairs p.has_self buffer1 with
      | none => none
      | some (hs, buffer2) => some ({ p with has_self := hs }, buffer2)

/-- `FunctionParser::rename_self` (parser.rs lines 62-82). -/
def FunctionParser.rename_self (p : FunctionParser) (buffer : List Nat) :
    Option (List Nat) :=
  if !p.has_self then some buffer
  else
    match get_class_path p.definition with
    | none => some buffer
    | some function_path =>
      if p.definition_parameters.length == 1 then
        find_and_replace buffer
          (strBytes "function " ++ function_path ++ strBytes "(self)")
          (strBytes "function " ++ dotToColon function_path ++ strBytes "()") p.position
      else
        find_and_replace buffer
          (strBytes "function " ++ function_path ++ strBytes "(self, ")
          (strBytes "function " ++ dotToColon function_path ++ strBytes "(") p.position

/-- The reattachment engine's per-prototype sequence with all annotation
options off (util.rs lines 151-165): build the parser, then rename
parameters, then rewrite the method signature. -/
def reattachSite (buffer : List Nat) (proto : Prototype) : Option (List Nat) :=
  match FunctionParser.from buffer proto with
  | none => none
  | some (none, buffer) => some buffer
  | some (some parser, buffer) =>
    match parser.rename_parameters buffer with
    | none => none
    | some (parser, buffer) => parser.rename_self buffer

/-! ### The upvalue-placeholder heuristic (`util.rs` lines 110-139) -/

def isDigit (c : Nat) : Bool := 48 ≤ c && c ≤ 57

/-- One candidate of `\bv_u_\d+_\b` at the current position (leading `\b`
checked by the caller): `v_u_`, one-or-more digits (greedy; only the maximal
run can be followed by `_`), `_`, then a trailing word boundary.  Returns
the matched text and the input after the match. -/
def phAt (s : List Nat) : Option (List Nat × List Nat) :=
  match s with
  | 118 :: 95 :: 117 :: 95 :: r =>
    let ds := r.takeWhile isDigit
    if ds = [] then none
    else
      match r.drop ds.length with
      | 95 :: r2 =>
        match r2 with
        | [] => some ([118, 95, 117, 95] ++ ds ++ [95], [])
        | c :: _ =>
          if isWord c then none else some ([118, 95, 117, 95] ++ ds ++ [95], r2)
      | _ => none
  | _ => none

def phFindGo : Nat → Option Nat → List Nat → List (List Nat)
  | 0, _, _ => []
  | fuel + 1, prev, s =>
    match s with
    | [] => []
    | c :: r =>
      if (match prev with | none => true | some q => !isWord q) then
        match phAt (c :: r) with
        | some (m, rest) => m :: phFindGo fuel (some 95) rest
        | none => phFindGo fuel (some c) r
      else phFindGo fuel (some c) r

/-- `Regex::find_iter` for `\bv_u_\d+_\b`: the non-overlapping matches in
order of appearance. -/
def findPlaceholders (s : List Nat) : List (List Nat) :=
  phFindGo (s.length + 1) none s

/-- The replacement loop of `rename_nearest_upvalues` (util.rs lines
130-136): for each match, in order, take the next local name (stopping when
the names run out) and replace the matched text throughout the buffer from
offset 0. -/
def upvalLoop (locals : List (List Nat)) : List (List Nat) → Nat → List Nat →
    Option (List Nat)
  | [], _, buffer => some buffer
  | cap :: caps, i, buffer =>
    match locals.get? i with
    | none => some buffer
    | some name =>
      match find_and_replace buffer cap name 0 with
      | none => none
      | some buffer => upvalLoop locals caps (i + 1) buffer

/-- `rename_nearest_upvalues` (util.rs lines 110-139).  `none` models both
the propagated UTF-8 error (`to_string()?`) and the panic of the slice
`buffer[0..nearest]` when `nearest` exceeds the buffer length. -/
def rename_nearest_upvalues (buffer : List Nat) (main : Nat)
    (functions : List Prototype) (nearest_proto_position : Nat) : Option (List Nat) :=
  if functions.length == 1 then some buffer
  else
    match functions.get? main with
    | none => some buffer
    | some mainProto =>
      if buffer.length < nearest_proto_position then none
      else
        match bufToString (buffer.take nearest_proto_position) with
        | none => none
        | some s => upvalLoop mainProto.get_locals (findPlaceholders s) 0 buffer

/-! ## Theorems about the reattachment engine -/

/-- **C4.** For the located site `function M.doThing(self, x, y)` with
recovered parameter names `[self, a, b]`, the reattachment sequence (site
construction, parameter rename, method rewrite) produces exactly
`function M:doThing(a, b)` (with the `\r\n` separator the site constructor
inserts before the match); and for the single-parameter site
`function M.doThing(self)` with recovered name `[self]` it produces exactly
`function M:doThing()` — self dropped, `.` switched to `:`, remaining
parameters renamed. -/
theorem reattach_method_rewrite :
    reattachSite (strBytes "function M.doThing(self, x, y)\n\treturn 1\nend\n")
      { name := some (strBytes "doThing"),
        locals := [⟨strBytes "self", 0, 9, 0⟩, ⟨strBytes "a", 0, 9, 1⟩,
                   ⟨strBytes "b", 0, 9, 2⟩],
        upvalues := [], file_scope := none } =
      some (strBytes "\r\nfunction M:doThing(a, b)\n\treturn 1\nend\n") ∧
    reattachSite (strBytes "function M.doThing(self)\n\treturn 1\nend\n")
      { name := some (strBytes "doThing"),
        locals := [⟨strBytes "self", 0, 9, 0⟩],
        upvalues := [], file_scope := none } =
      some (strBytes "\r\nfunction M:doThing()\n\treturn 1\nend\n") := by
  exact ⟨by decide, by decide⟩

/-- **C3.** Whenever the located textual signature of a prototype yields a
parenthesised parameter text that is empty, or whose comma-separated token
count differs from the bytecode-declared parameter count, the site
constructor skips the prototype (`none`) and returns the text buffer
completely unchanged — the later rewriting steps only run on a constructed
site, so the buffer is never partially rewritten. -/
theorem from_skips_on_arity_mismatch (buffer : List Nat) (proto : Prototype)
    (nm : List Nat) (position initial_size : Nat) (defn dps : List Nat)
    (hname : proto.name = some nm)
    (hpos : find_position_of_function buffer nm 0 = some position)
    (hsize : find_bytes_from buffer [0x0A] position = some initial_size)
    (hdefn : bufToString ((buffer.drop position).take initial_size) = some defn)
    (hparens : extractParens defn = some dps)
    (hmism : dps = [] ∨ (splitOnComma dps).length ≠ proto.get_parameters.length) :
    FunctionParser.from buffer proto = some (none, buffer) := by
  unfold FunctionParser.from
  by_cases h0 : (proto.name.isNone || proto.get_parameters.length == 0) = true
  · rw [if_pos h0]
  · rw [if_neg h0, hname]
    dsimp only [Option.getD]
    rw [hpos]
    dsimp only
    rw [hsize]
    dsimp only
    rw [hdefn]
    dsimp only
    rw [hparens]
    dsimp only
    have hcond : (dps.length == 0 ||
        (splitOnComma dps).length != proto.get_parameters.length) = true := by
      rcases hmism with h | h
      · subst h; simp
      · simp [h]
    rw [if_pos hcond]

/-- Witness for `from_skips_on_arity_mismatch`: two declared parameters but
three comma-separated tokens in the located signature: the prototype is
skipped and the buffer returned unchanged. -/
theorem from_skips_on_arity_mismatch_witness :
    FunctionParser.from (strBytes "function F(a, b, c)\nend")
      { name := some (strBytes "F"),
        locals := [⟨strBytes "p1", 0, 9, 0⟩, ⟨strBytes "p2", 0, 9, 1⟩],
        upvalues := [], file_scope := none } =
      some (none, strBytes "function F(a, b, c)\nend") :=
  from_skips_on_arity_mismatch _ _ (strBytes "F") 0 19 (strBytes "function F(a, b, c)")
    (strBytes "a, b, c") rfl (by decide) (by decide) (by decide) (by decide)
    (Or.inr (by decide))

/-- **C9.** A prototype without a name, or with zero declared parameters, is
skipped by the site constructor without an error and with the buffer
unchanged; and on text that is not valid UTF-8 the function-site locator
returns `none` rather than raising an error. -/
theorem locator_skips_gracefully (buffer : List Nat) (proto : Prototype)
    (name : List Nat) (offset : Nat) :
    ((proto.name = none ∨ proto.get_parameters = []) →
      FunctionParser.from buffer proto = some (none, buffer)) ∧
    (validUtf8 buffer = false → find_position_of_function buffer name offset = none) := by
  constructor
  · intro h
    unfold FunctionParser.from
    have hcond : (proto.name.isNone || proto.get_parameters.length == 0) = true := by
      rcases h with h | h <;> simp [h]
    rw [if_pos hcond]
  · intro h
    unfold find_position_of_function
    simp [h]

/-- Witness for `locator_skips_gracefully`: an anonymous prototype is
skipped with the buffer unchanged, and a lone continuation byte (invalid
UTF-8) makes the locator return `none`. -/
theorem locator_skips_gracefully_witness :
    (FunctionParser.from [65, 66]
        { name := none, locals := [], upvalues := [], file_scope := none } =
      some (none, [65, 66])) ∧
    find_position_of_function [0xFF] (strBytes "F") 0 = none :=
  ⟨(locator_skips_gracefully [65, 66] _ (strBytes "F") 0).1 (Or.inl rfl),
   (locator_skips_gracefully [0xFF]
      { name := none, locals := [], upvalues := [], file_scope := none }
      (strBytes "F") 0).2 (by decide)⟩

theorem renameLoop_buffer (pos : Nat) :
    ∀ (pairs : List (List Nat × List Nat)) (hs : Bool) (buffer : List Nat)
      (hs' : Bool) (out : List Nat),
      renameLoop pos pairs hs buffer = some (hs', out) →
      some out = (pairs.filter (fun q => q.1 != strBytes "_")).foldlM
        (fun b q => find_and_replace b q.1 q.2 pos) buffer := by
  intro pairs
  induction pairs with
  | nil =>
    intro hs buffer hs' out h
    cases h
    rfl
  | cons q rest ih =>
    intro hs buffer hs' out h
    rcases q with ⟨dn, nm⟩
    by_cases hu : dn = strBytes "_"
    · simp only [renameLoop, hu, ne_eq, not_true_eq_false, if_false] at h
      have := ih _ _ _ _ h
      simpa [hu] using this
    · simp only [renameLoop, ne_eq, hu, not_false_eq_true, if_true] at h
      cases hfar : find_and_replace buffer dn nm pos with
      | none => rw [hfar] at h; cases h
      | some b2 =>
        rw [hfar] at h
        have hrec := ih _ _ _ _ h
        have hfilter : List.filter (fun q => q.1 != strBytes "_") ((dn, nm) :: rest) =
            (dn, nm) :: List.filter (fun q => q.1 != strBytes "_") rest := by
          simp [List.filter_cons, hu]
        rw [hfilter, List.foldlM_cons, hfar]
        simpa using hrec

/-- **C8.** In `rename_parameters`, after the one-time replacement of the
parenthesised signature, the per-pair substitution pass touches the buffer
only through the pairs whose trimmed original name differs from the single
underscore: the final buffer equals the fold of `find_and_replace` over
exactly those pairs (so a pair whose original name is `_` is never
substring-replaced in the function's extent, even though a recovered name is
supplied for that position, while every other pair is substituted). -/
theorem rename_parameters_skips_underscore (p : FunctionParser) (buffer : List Nat)
    (p' : FunctionParser) (out : List Nat)
    (h : p.rename_parameters buffer = some (p', out)) :
    ∃ pairs buffer1,
      find_and_replace buffer ([40] ++ p.definition_parameters_str ++ [41])
        ([40] ++ joinCommaSpace p.parameters ++ [41]) 0 = some buffer1 ∧
      mapPairs p.parameters p.definition_parameters 0 = some pairs ∧
      some out = (pairs.filter (fun q => q.1 != strBytes "_")).foldlM
        (fun b q => find_and_replace b q.1 q.2 p.position) buffer1 := by
  unfold FunctionParser.rename_parameters at h
  cases hfar : find_and_replace buffer ([40] ++ p.definition_parameters_str ++ [41])
      ([40] ++ joinCommaSpace p.parameters ++ [41]) 0 with
  | none => rw [hfar] at h; cases h
  | some buffer1 =>
    rw [hfar] at h
    dsimp only at h
    cases hmap : mapPairs p.parameters p.definition_parameters 0 with
    | none => rw [hmap] at h; cases h
    | some pairs =>
      rw [hmap] at h
      dsimp only at h
      cases hloop : renameLoop p.position pairs p.has_self buffer1 with
      | none => rw [hloop] at h; cases h
      | some r =>
        rcases r with ⟨hs2, buffer2⟩
        rw [hloop] at h
        dsimp only at h
        cases h
        exact ⟨pairs, buffer1, rfl, rfl, renameLoop_buffer p.position pairs _ _ _ _ hloop⟩

/-- Witness for `rename_parameters_skips_underscore`: original parameters
`(_, x)` renamed to `(newA, newB)` — the signature is rewritten once, the
two `x` occurrences in the body become `newB`, and the `_` in the body is
left untouched even though `newA` was supplied for that position. -/
theorem rename_parameters_skips_underscore_witness :
    ∃ pairs buffer1,
      find_and_replace (strBytes "function f(_, x)\n x _ x")
        ([40] ++ strBytes "_, x" ++ [41])
        ([40] ++ joinCommaSpace [strBytes "newA", strBytes "newB"] ++ [41]) 0 =
        some buffer1 ∧
      mapPairs [strBytes "newA", strBytes "newB"] [strBytes "_", strBytes " x"] 0 =
        some pairs ∧
      some (strBytes "function f(newA, newB)\n newB _ newB") =
        (pairs.filter (fun q => q.1 != strBytes "_")).foldlM
          (fun b q => find_and_replace b q.1 q.2 0) buffer1 :=
  rename_parameters_skips_underscore
    { name := strBytes "f", position := 0, initial_size := 0,
      parameters := [strBytes "newA", strBytes "newB"],
      definition := strBytes "function f(_, x)",
      definition_parameters := [strBytes "_", strBytes " x"],
      definition_parameters_str := strBytes "_, x", has_self := false }
    (strBytes "function f(_, x)\n x _ x")
    { name := strBytes "f", position := 0, initial_size := 0,
      parameters := [strBytes "newA", strBytes "newB"],
      definition := strBytes "function f(_, x)",
      definition_parameters := [strBytes "_", strBytes " x"],
      definition_parameters_str := strBytes "_, x", has_self := false }
    (strBytes "function f(newA, newB)\n newB _ newB") (by decide)

/-- **C5 (counterexample).** With two identical placeholder occurrences
`v_u_1_` before the first located site and main-prototype local names
`[aa, bb]`, the pass produces `aa aa end`: the first global replacement
already rewrites both occurrences, and the second match still consumes the
name `bb` with no effect.  The claim — each occurrence replaced, in order,
with the corresponding name — would give `aa bb end`. -/
theorem upvalue_pass_duplicate_placeholder :
    rename_nearest_upvalues (strBytes "v_u_1_ v_u_1_ end") 0
      [{ name := none,
         locals := [⟨strBytes "aa", 1, 9, 0⟩, ⟨strBytes "bb", 2, 9, 1⟩],
         upvalues := [], file_scope := none },
       { name := none, locals := [], upvalues := [], file_scope := none }] 13 =
      some (strBytes "aa aa end") ∧
    strBytes "aa aa end" ≠ strBytes "aa bb end" := by
  exact ⟨by decide, by decide⟩

theorem upvalLoop_eq_zip (locals : List (List Nat)) :
    ∀ (caps : List (List Nat)) (i : Nat) (buffer : List Nat),
      upvalLoop locals caps i buffer =
        (caps.zip (locals.drop i)).foldlM
          (fun b q => find_and_replace b q.1 q.2 0) buffer := by
  intro caps
  induction caps with
  | nil => intro i buffer; simp [upvalLoop]
  | cons cap caps ih =>
    intro i buffer
    cases hget : locals.get? i with
    | none =>
      have hlen : locals.length ≤ i := List.get?_eq_none.mp hget
      rw [List.drop_eq_nil_of_le hlen]
      simp only [upvalLoop]
      rw [hget]
      simp
    | some name =>
      have hlt : i < locals.length := by
        by_contra hc
        rw [List.get?_eq_none.mpr (by omega)] at hget
        cases hget
      have helem : locals[i] = name := by
        have h1 : locals[i]? = some name := by
          rw [← List.get?_eq_getElem?]
          exact hget
        rw [List.getElem?_eq_getElem hlt] at h1
        exact Option.some.inj h1
      have hdrop : locals.drop i = name :: locals.drop (i + 1) := by
        rw [List.drop_eq_getElem_cons hlt, helem]
      rw [hdrop]
      simp only [List.zip_cons_cons, List.foldlM_cons]
      simp only [upvalLoop]
      rw [hget]
      dsimp only
      cases hfar : find_and_replace buffer cap name 0 with
      | none => rfl
      | some b2 => exact ih (i + 1) b2

/-- **C5 (amended).** After the per-prototype loop, the pass collects the
placeholder-pattern matches from the text preceding the first located site
in order of appearance, pairs them positionally with the main prototype's
local names in scope-start order, stopping as soon as either list is
exhausted (the zip), and for each pair replaces the matched text throughout
the whole buffer (from offset 0, so occurrences are rewritten wherever that
text appears, and a duplicate of an already-rewritten placeholder consumes
its name with no effect). -/
theorem upvalue_pass_global_replace (buffer : List Nat) (main : Nat)
    (functions : List Prototype) (nearest : Nat) (mp : Prototype)
    (hlen : functions.length ≠ 1) (hmain : functions.get? main = some mp)
    (hrange : nearest ≤ buffer.length)
    (hutf : validUtf8 (buffer.take nearest) = true) :
    rename_nearest_upvalues buffer main functions nearest =
      ((findPlaceholders (buffer.take nearest)).zip mp.get_locals).foldlM
        (fun b q => find_and_replace b q.1 q.2 0) buffer := by
  unfold rename_nearest_upvalues
  have h1 : (functions.length == 1) = false := by simpa using hlen
  rw [h1]
  simp only [Bool.false_eq_true, if_false, hmain]
  rw [if_neg (by omega)]
  unfold bufToString
  rw [if_pos hutf]
  have := upvalLoop_eq_zip mp.get_locals (findPlaceholders (buffer.take nearest)) 0 buffer
  simpa using this

/-- Witness for `upvalue_pass_global_replace` at a concrete buffer with one
placeholder and one local name. -/
theorem upvalue_pass_global_replace_witness :
    rename_nearest_upvalues (strBytes "v_u_2_! f") 0
      [{ name := none, locals := [⟨strBytes "cc", 1, 9, 0⟩], upvalues := [],
         file_scope := none },
       { name := none, locals := [], upvalues := [], file_scope := none }] 7 =
      ((findPlaceholders ((strBytes "v_u_2_! f").take 7)).zip
          (Prototype.get_locals
            { name := none, locals := [⟨strBytes "cc", 1, 9, 0⟩], upvalues := [],
              file_scope := none })).foldlM
        (fun b q => find_and_replace b q.1 q.2 0) (strBytes "v_u_2_! f") :=
  upvalue_pass_global_replace (strBytes "v_u_2_! f") 0
    [{ name := none, locals := [⟨strBytes "cc", 1, 9, 0⟩], upvalues := [],
       file_scope := none },
     { name := none, locals := [], upvalues := [], file_scope := none }] 7
    { name := none, locals := [⟨strBytes "cc", 1, 9, 0⟩], upvalues := [],
      file_scope := none }
    (by decide) rfl (by decide) (by decide)

end FsUtils
